import Mathlib

/-!
Verification of the initiative-manager turn-tracker engine.

The definitions below are a shallow embedding of the combatant data model and
the state-update handlers of `src/main.rs` (the `iced` UI widget state that is
interleaved with the domain data — button states, text-input focus, scroll
positions — is presentation-only and is omitted).  Machine integers (`u32`,
`i32`) are modelled as `Nat` / `Int`, with two's-complement wrap-around made
explicit at exactly the operations where the source can overflow (the source
ships as a release build, whose arithmetic wraps).
-/

/-- Visibility-wrapped value, from `utils.rs`: `pub struct Hidden<T>(pub T, pub bool)`.
The second component is the per-field "hidden from players" flag. -/
structure Hidden (α : Type) where
  val : α
  hidden : Bool
deriving DecidableEq

/-- Combatant record, from `struct Entity` in `main.rs`.  Fields that are pure
UI widget state (`remove_state`, `damage`, `heal`, `la_minus`, `la_plus`,
`init_up`, `init_down`) are omitted; `reactionFree` and `concentrating` are the
`value` field of their `ToggleButtonState`.  `legendaryActions` carries the
`(total, remaining)` pair. -/
structure Entity where
  name : Hidden String
  hp : Hidden Nat
  reactionFree : Bool
  concentrating : Bool
  legendaryActions : Option (Hidden (Nat × Nat))
  initiative : Hidden Nat
deriving DecidableEq

/-- Constructor `Entity::new` in `main.rs`: reaction starts available,
not concentrating, no legendary actions. -/
def Entity.new (name : Hidden String) (hp : Hidden Nat) (initiative : Hidden Nat) : Entity :=
  { name := name, hp := hp, reactionFree := true, concentrating := false,
    legendaryActions := none, initiative := initiative }

/-- Insertion position computed by `InitiativeManager::insert_entity`:
`entities.iter().position(|e| e.initiative.0 < entity.initiative.0).unwrap_or(entities.len())`,
the index of the first combatant whose initiative is strictly below `v`, or the
length when there is none. -/
def insertIndex (v : Nat) : List Entity → Nat
  | [] => 0
  | e :: es => if e.initiative.val < v then 0 else insertIndex v es + 1

/-- From `InitiativeManager::insert_entity` in `main.rs`: insert the combatant
at `insertIndex` (`Vec::insert`, i.e. before the element previously at that
position) and bump the turn pointer when `*turn >= index`. -/
def insert_entity (entities : List Entity) (turn : Nat) (entity : Entity) :
    List Entity × Nat :=
  let index := insertIndex entity.initiative.val entities
  (entities.take index ++ entity :: entities.drop index,
   if turn ≥ index then turn + 1 else turn)

/-- Helper: a combatant with the given name and initiative (HP 0, defaults from
`Entity::new`), used for concrete test inputs. -/
def mkE (name : String) (init : Nat) : Entity :=
  Entity.new ⟨name, false⟩ ⟨0, false⟩ ⟨init, false⟩

/-- Handler of `Message::DeleteEntity(i)` in `main.rs`:
`self.entities.remove(i); if i < self.turn { self.turn -= 1; }`.
`Vec::remove` panics on an out-of-range index; the model is total via
`eraseIdx`, with index validity a hypothesis of the theorems about it. -/
def deleteEntity (entities : List Entity) (turn : Nat) (i : Nat) : List Entity × Nat :=
  (entities.eraseIdx i, if i < turn then turn - 1 else turn)

/-- Per-turn reset applied by the `Message::NextTurn` handler to the combatant
at the new turn index: reaction becomes available again and, when a
legendary-action budget exists, `remaining` is refilled to `total`. -/
def resetEntity (e : Entity) : Entity :=
  { e with reactionFree := true,
           legendaryActions := e.legendaryActions.map fun h => ⟨(h.val.1, h.val.1), h.hidden⟩ }

/-- Point update of one list position, the model of
`if let Some(entity) = self.entities.get_mut(self.turn) { ... }`: out-of-range
indices leave the list unchanged, exactly as `get_mut` returning `None` does. -/
def modifyAt (f : Entity → Entity) : List Entity → Nat → List Entity
  | [], _ => []
  | x :: xs, 0 => f x :: xs
  | x :: xs, n + 1 => x :: modifyAt f xs n

/-- Handler of `Message::NextTurn` in `main.rs`:
`self.turn = (self.turn + 1).checked_rem(self.entities.len()).unwrap_or(0)`
(`checked_rem` is `None` exactly for an empty list), then the reset side effect
on the combatant now at the new index. -/
def nextTurn (entities : List Entity) (turn : Nat) : List Entity × Nat :=
  let t := if entities.length = 0 then 0 else (turn + 1) % entities.length
  (modifyAt resetEntity entities t, t)

/-- Handler of `Message::PrevTurn` in `main.rs`: wrap to
`len().saturating_sub(1)` from 0, otherwise `saturating_sub(1)` — both are
plain truncated subtraction on `Nat`.  No side effect on any combatant. -/
def prevTurn (entities : List Entity) (turn : Nat) : Nat :=
  if turn = 0 then entities.length - 1 else turn - 1

/-- One `Message::NextTurn` step on the whole (list, turn) state, for
iterated-advance statements. -/
def advanceState (s : List Entity × Nat) : List Entity × Nat := nextTurn s.1 s.2

/-- Modulus of `u32` arithmetic. -/
def u32Mod : Nat := 2 ^ 32

/-- Handler of `Message::LegActionMinus(i)` in `main.rs`: `*left -= 1;` with no
bounds check of its own.  `u32` release-profile subtraction wraps, made
explicit here; the view only emits this message when `left != 0`
(see `legActionMinusGated`). -/
def legActionMinus (e : Entity) : Entity :=
  { e with legendaryActions :=
      e.legendaryActions.map fun h => ⟨(h.val.1, (h.val.2 + (u32Mod - 1)) % u32Mod), h.hidden⟩ }

/-- Handler of `Message::LegActionPlus(i)` in `main.rs`: `*left += 1;` with no
clamp to `total`; the view only emits this message when `left != tot`
(see `legActionPlusGated`). -/
def legActionPlus (e : Entity) : Entity :=
  { e with legendaryActions :=
      e.legendaryActions.map fun h => ⟨(h.val.1, (h.val.2 + 1) % u32Mod), h.hidden⟩ }

/-- The decrement operation as reachable through the UI: the view attaches
`on_press(Message::LegActionMinus)` only when `*left != 0` (`main.rs`, the
legendary-actions row), so at `left == 0` no message is sent and the state is
unchanged. -/
def legActionMinusGated (e : Entity) : Entity :=
  match e.legendaryActions with
  | some h => if h.val.2 ≠ 0 then legActionMinus e else e
  | none => e

/-- The increment operation as reachable through the UI: the view attaches
`on_press(Message::LegActionPlus)` only when `*left != *tot`. -/
def legActionPlusGated (e : Entity) : Entity :=
  match e.legendaryActions with
  | some h => if h.val.2 ≠ h.val.1 then legActionPlus e else e
  | none => e

/-- Swap of two list positions, the model of `Vec::swap` as used by the
`Message::MoveUp(i)` / `Message::MoveDown(i)` handlers (`entities.swap(i, i-1)`
and `entities.swap(i, i+1)`).  `Vec::swap` panics out of range; the model is
total, with index validity a hypothesis of the theorems about it. -/
def swapIdx (l : List Entity) (i j : Nat) : List Entity :=
  match l.get? i, l.get? j with
  | some a, some b => (l.set i b).set j a
  | _, _ => l

/-- Engine state: the combatant list and the current-turn pointer
(`entities` / `turn` fields of `InitiativeManager`). -/
structure EState where
  entities : List Entity
  turn : Nat
deriving DecidableEq

/-- The list-mutating intents of the engine (the `Message` variants that touch
`entities` or `turn`). -/
inductive Op where
  | insert (e : Entity)
  | delete (i : Nat)
  | next
  | prev
  | moveUp (i : Nat)
  | moveDown (i : Nat)

/-- One step of the engine: dispatch of the corresponding `Message` handler. -/
def step (s : EState) : Op → EState
  | .insert e =>
    let p := insert_entity s.entities s.turn e
    ⟨p.1, p.2⟩
  | .delete i =>
    let p := deleteEntity s.entities s.turn i
    ⟨p.1, p.2⟩
  | .next =>
    let p := nextTurn s.entities s.turn
    ⟨p.1, p.2⟩
  | .prev => ⟨s.entities, prevTurn s.entities s.turn⟩
  | .moveUp i => ⟨swapIdx s.entities i (i - 1), s.turn⟩
  | .moveDown i => ⟨swapIdx s.entities i (i + 1), s.turn⟩

/-- Index-validity contract under which the presentation layer issues each
intent (out-of-range delete/swap indices panic in the source). -/
def opValid (s : EState) : Op → Prop
  | .insert _ => True
  | .delete i => i < s.entities.length
  | .next => True
  | .prev => True
  | .moveUp i => 0 < i ∧ i < s.entities.length
  | .moveDown i => i + 1 < s.entities.length

/-- Turn-pointer invariant actually maintained by the engine: the pointer never
exceeds the list length, and is 0 for the empty list. -/
def TurnInv (s : EState) : Prop :=
  s.turn ≤ s.entities.length ∧ (s.entities.length = 0 → s.turn = 0)

/-- Encounter-save record, from `struct Enemy` in `main.rs`: name, HP, the
legendary-action total only (the `remaining` half is dropped on save), and
initiative, each with its hidden flag. -/
structure Enemy where
  name : Hidden String
  hp : Hidden Nat
  legendaryActions : Option (Hidden Nat)
  initiative : Hidden Nat
deriving DecidableEq

/-- Party-save record, from `struct Pc` in `main.rs`: name and HP only. -/
structure Pc where
  name : String
  hp : Nat
deriving DecidableEq

/-- The per-combatant snapshot taken by the `Message::SaveEncounter` handler:
`Enemy { name, hp, legendary_actions: map |Hidden((las, _), hidden)| Hidden(las, hidden), initiative }`. -/
def entityToEnemy (e : Entity) : Enemy :=
  { name := e.name, hp := e.hp,
    legendaryActions := e.legendaryActions.map fun h => ⟨h.val.1, h.hidden⟩,
    initiative := e.initiative }

/-- The per-record conversion done by the `Message::LoadEncounter` confirm
branch: `Entity::new(name, hp, initiative)` then, when a legendary total `las`
is present, `legendary_actions = Some(Hidden((las, las), hidden))` — the
remaining budget restarts at the total. -/
def enemyToEntity (en : Enemy) : Entity :=
  let e := Entity.new en.name en.hp en.initiative
  match en.legendaryActions with
  | some h => { e with legendaryActions := some ⟨(h.val, h.val), h.hidden⟩ }
  | none => e

/-- Sequential insertion of freshly loaded combatants:
`.for_each(|e| Self::insert_entity(&mut self.entities, &mut self.turn, e))`. -/
def insertAll (entities : List Entity) (turn : Nat) (new : List Entity) :
    List Entity × Nat :=
  new.foldl (fun p e => insert_entity p.1 p.2 e) (entities, turn)

/-- Save-mode state machine from `enum SaveMode` in `main.rs`, keeping the
domain payloads and dropping the text-input / button / scrollbar widget state. -/
inductive SaveMode where
  | none
  | saveEncounter
  | deleteEncounter (name : String)
  | loadEncounter (name : String) (rows : List Enemy)
  | saveParty
  | deleteParty (name : String)
  | loadParty (name : String) (rows : List (Pc × String))
deriving DecidableEq

/-- Handler of `Message::LoadEncounter(name)` in `main.rs`.  The file read and
JSON parse (`OpenOptions::open(...).unwrap()` then
`serde_json::from_reader::<_, Vec<Enemy>>(...).unwrap()`) is abstracted as the
`read` argument; both `unwrap()`s turn a read/parse error into a panic, which
the model returns as `Option.none`.  The confirm branch (same name already
staged) converts every staged record and inserts them all. -/
def loadEncounterMsg (name : String) (mode : SaveMode) (entities : List Entity)
    (turn : Nat) (read : Except String (List Enemy)) :
    Option (SaveMode × List Entity × Nat) :=
  match mode with
  | .loadEncounter curr rows =>
    if curr = name then
      let p := insertAll entities turn (rows.map enemyToEntity)
      some (.none, p.1, p.2)
    else
      match read with
      | .ok rows2 => some (.loadEncounter name rows2, entities, turn)
      | .error _ => Option.none
  | _ =>
    match read with
    | .ok rows2 => some (.loadEncounter name rows2, entities, turn)
    | .error _ => Option.none

/-- Handler of `Message::LoadParty(name)` in `main.rs`, same shape as
`loadEncounterMsg`: the read/parse `unwrap()`s panic on error (`Option.none`);
the staging branch pairs each parsed `Pc` with an empty initiative text input;
the confirm branch parses each typed initiative with `parse::<u32>().unwrap()`
(panic when unparseable — the `Message::PcInitiative` filter only admits digit
strings) and inserts every built combatant. -/
def loadPartyMsg (name : String) (mode : SaveMode) (entities : List Entity)
    (turn : Nat) (read : Except String (List Pc)) :
    Option (SaveMode × List Entity × Nat) :=
  match mode with
  | .loadParty curr rows =>
    if curr = name then
      match rows.mapM (fun pr => (pr.2.toNat?).map fun init =>
          Entity.new ⟨pr.1.name, false⟩ ⟨pr.1.hp, false⟩ ⟨init, false⟩) with
      | some new =>
        let p := insertAll entities turn new
        some (.none, p.1, p.2)
      | Option.none => Option.none
    else
      match read with
      | .ok pcs => some (.loadParty name (pcs.map fun pc => (pc, "")), entities, turn)
      | .error _ => Option.none
  | _ =>
    match read with
    | .ok pcs => some (.loadParty name (pcs.map fun pc => (pc, "")), entities, turn)
    | .error _ => Option.none

/-- Two's-complement wrap into the `i32` range, the release-profile behaviour
of `i32` addition in the source. -/
def wrapI32 (z : Int) : Int := (z + 2 ^ 31) % 2 ^ 32 - 2 ^ 31

/-- Initiative produced by the `Message::NewEntitySubmit` handler when the
initiative field is empty or starts with `+`/`-`:
`modifier = init.parse().unwrap_or(0); roll = gen_range(1..=20);
std::cmp::max(0, roll + modifier) as u32`.  `roll + modifier` is `i32`
addition (wrapping in release builds); the `max` result is non-negative, so
the `as u32` cast is exact. -/
def rollInitiative (modifier : Int) (roll : Nat) : Nat :=
  (max 0 (wrapI32 ((roll : Int) + modifier))).toNat

/-- The insertion position never exceeds the list length. -/
theorem insertIndex_le_length (v : Nat) (l : List Entity) : insertIndex v l ≤ l.length := by
  induction l with
  | nil => simp [insertIndex]
  | cons e es ih =>
    by_cases h : e.initiative.val < v
    · simp [insertIndex, h]
    · simp only [insertIndex, h, if_false, ite_false, List.length_cons]
      omega

/-- Every combatant before the insertion position has initiative at least `v`
(this is the first-index property of `position`, no sortedness needed). -/
theorem mem_take_insertIndex (v : Nat) (l : List Entity) :
    ∀ x ∈ l.take (insertIndex v l), v ≤ x.initiative.val := by
  induction l with
  | nil => simp
  | cons e es ih =>
    by_cases h : e.initiative.val < v
    · simp [insertIndex, h]
    · simp only [insertIndex, h, if_false, ite_false, List.take_succ_cons, List.mem_cons]
      rintro x (rfl | hx)
      · omega
      · exact ih x hx

/-- In a descending-sorted list, every combatant from the insertion position on
has initiative strictly below `v`. -/
theorem mem_drop_insertIndex (v : Nat) (l : List Entity)
    (hs : List.Pairwise (fun a b => b.initiative.val ≤ a.initiative.val) l) :
    ∀ x ∈ l.drop (insertIndex v l), x.initiative.val < v := by
  induction l with
  | nil => simp
  | cons e es ih =>
    rcases hs with _ | ⟨he, hes⟩
    by_cases h : e.initiative.val < v
    · simp only [insertIndex, h, if_true, ite_true, List.drop_zero, List.mem_cons]
      rintro x (rfl | hx)
      · exact h
      · exact lt_of_le_of_lt (he x hx) h
    · simp only [insertIndex, h, if_false, ite_false, List.drop_succ_cons]
      exact ih hes

/-- In a descending-sorted list the last element is a lower bound for every
member. -/
theorem getLast_le_of_sorted :
    ∀ (xs : List Entity),
      List.Pairwise (fun a b => b.initiative.val ≤ a.initiative.val) xs →
      ∀ y ∈ xs, ∀ z, xs.getLast? = some z → z.initiative.val ≤ y.initiative.val := by
  intro xs
  induction xs with
  | nil => simp
  | cons a xs ih =>
    intro hs y hy z hz
    rcases hs with _ | ⟨ha, hxs⟩
    cases xs with
    | nil =>
      simp only [List.getLast?_singleton, Option.some.injEq] at hz
      simp only [List.mem_singleton] at hy
      subst hz; subst hy; exact le_refl _
    | cons b tail =>
      rw [List.getLast?_cons_cons] at hz
      rcases List.mem_cons.mp hy with rfl | hy2
      · exact ha z (List.mem_of_mem_getLast? (by simp [hz]))
      · exact ih hxs y hy2 z hz

/-- Claim C1, counterexample: inserting C(9) into the sorted list
`[A(10), B(9)]`, which contains a combatant of equal initiative, places C at
index 2 — after the existing equal-initiative combatant B at index 1 — and not
immediately before the existing block as the claim states (the strict `<`
comparison in `insert_entity` skips past equal values). -/
theorem insert_tie_counterexample :
    (insert_entity [mkE "A" 10, mkE "B" 9] 0 (mkE "C" 9)).1
        = [mkE "A" 10, mkE "B" 9, mkE "C" 9]
    ∧ (insert_entity [mkE "A" 10, mkE "B" 9] 0 (mkE "C" 9)).1
        ≠ [mkE "A" 10, mkE "C" 9, mkE "B" 9] := by
  decide

/-- Claim C1 (amended): for every descending-sorted combatant list containing
at least one combatant whose initiative equals that of the newly inserted one,
`insert_entity` places the new combatant immediately AFTER the existing block
of combatants with that initiative value: the new combatant lands at the first
position whose initiative is strictly smaller, the combatant directly before it
has equal initiative, everything before it has initiative at least the new
value, and everything after it — in particular every existing equal-initiative
combatant is before it — has strictly smaller initiative. -/
theorem insert_tie_after_block :
    ∀ (l : List Entity) (t : Nat) (e : Entity),
      List.Pairwise (fun a b => b.initiative.val ≤ a.initiative.val) l →
      (∃ x ∈ l, x.initiative.val = e.initiative.val) →
      (insert_entity l t e).1
          = l.take (insertIndex e.initiative.val l)
            ++ e :: l.drop (insertIndex e.initiative.val l)
      ∧ (∀ x ∈ l.take (insertIndex e.initiative.val l), e.initiative.val ≤ x.initiative.val)
      ∧ (∀ x ∈ l.drop (insertIndex e.initiative.val l), x.initiative.val < e.initiative.val)
      ∧ ∃ z, (l.take (insertIndex e.initiative.val l)).getLast? = some z
          ∧ z.initiative.val = e.initiative.val := by
  rintro l t e hs ⟨x₀, hx₀, hinit⟩
  refine ⟨rfl, mem_take_insertIndex _ l, mem_drop_insertIndex _ l hs, ?_⟩
  have hx0split : x₀ ∈ l.take (insertIndex e.initiative.val l)
      ++ l.drop (insertIndex e.initiative.val l) := by
    rw [List.take_append_drop]; exact hx₀
  rcases List.mem_append.mp hx0split with htake | hdrop
  · have hne : l.take (insertIndex e.initiative.val l) ≠ [] := List.ne_nil_of_mem htake
    obtain ⟨z, hz⟩ := Option.isSome_iff_exists.mp (List.getLast?_isSome.mpr hne)
    have hzmem : z ∈ l.take (insertIndex e.initiative.val l) :=
      List.mem_of_mem_getLast? (by simp [hz])
    have h1 : e.initiative.val ≤ z.initiative.val := mem_take_insertIndex _ l z hzmem
    have hsp : List.Pairwise (fun a b => b.initiative.val ≤ a.initiative.val)
        (l.take (insertIndex e.initiative.val l)) :=
      List.Pairwise.sublist (List.take_sublist _ l) hs
    have h2 : z.initiative.val ≤ x₀.initiative.val :=
      getLast_le_of_sorted _ hsp x₀ htake z hz
    exact ⟨z, hz, by omega⟩
  · have := mem_drop_insertIndex e.initiative.val l hs x₀ hdrop
    omega

/-- Claim C1 witness: the amended theorem applied to `[A(10), B(9)]` with
C(9) inserted. -/
theorem insert_tie_after_block_witness :
    ∃ z, (([mkE "A" 10, mkE "B" 9] : List Entity).take
            (insertIndex (mkE "C" 9).initiative.val [mkE "A" 10, mkE "B" 9])).getLast?
          = some z
      ∧ z.initiative.val = (mkE "C" 9).initiative.val :=
  (insert_tie_after_block [mkE "A" 10, mkE "B" 9] 0 (mkE "C" 9) (by decide)
    ⟨mkE "B" 9, by decide, by decide⟩).2.2.2

/-- Claim C2, counterexample: inserting into the empty list with turn 0 does
insert at position 0, but sets the turn pointer to 1 (the source test
`*turn >= index` is true for `0 >= 0`), not 0 as claimed. -/
theorem insert_empty_counterexample :
    insert_entity [] 0 (mkE "A" 10) = ([mkE "A" 10], 1)
    ∧ (insert_entity [] 0 (mkE "A" 10)).2 ≠ 0 := by
  decide

/-- Claim C2 (amended): inserting any combatant into the empty list with turn 0
inserts at position 0 and sets the turn pointer to 1 — one past the end of the
resulting singleton list. -/
theorem insert_empty_sets_turn_one : ∀ e : Entity, insert_entity [] 0 e = ([e], 1) :=
  fun _ => rfl

/-- Claim C4 (confirmed): `insert_entity` increments the turn pointer by
exactly 1 when the computed insertion position is at or before it (`p ≤ turn`,
the source test `*turn >= index`) and leaves it unchanged otherwise; and the
spec's concrete example — inserting C(9) into `[A(10), B(8)]` with turn 1 —
yields `[A(10), C(9), B(8)]` with turn 2. -/
theorem insert_turn_adjust :
    (∀ (l : List Entity) (t : Nat) (e : Entity),
        (insert_entity l t e).2
          = if insertIndex e.initiative.val l ≤ t then t + 1 else t)
    ∧ insert_entity [mkE "A" 10, mkE "B" 8] 1 (mkE "C" 9)
        = ([mkE "A" 10, mkE "C" 9, mkE "B" 8], 2) := by
  constructor
  · intro l t e; rfl
  · decide

/-- Claim C5 (confirmed): the delete handler removes exactly the combatant at
the given (valid) index; the turn pointer is decremented by 1 when
`index < turn` and left unchanged otherwise — in particular when
`index = turn`; removing the only combatant leaves turn 0, for every turn
pointer in the engine's reachable range `turn ≤ length`; and the spec's
concrete example — deleting index 0 from `[A(10), B(8), C(5)]` with turn 2 —
yields turn 1. -/
theorem delete_turn_adjust :
    (∀ (l : List Entity) (t i : Nat), i < l.length →
        (deleteEntity l t i).1 = l.take i ++ l.drop (i + 1)
        ∧ (deleteEntity l t i).1.length = l.length - 1)
    ∧ (∀ (l : List Entity) (t i : Nat),
        (deleteEntity l t i).2 = if i < t then t - 1 else t)
    ∧ (∀ (l : List Entity) (t : Nat), (deleteEntity l t t).2 = t)
    ∧ (∀ (l : List Entity) (t : Nat), l.length = 1 → t ≤ l.length →
        (deleteEntity l t 0).2 = 0)
    ∧ deleteEntity [mkE "A" 10, mkE "B" 8, mkE "C" 5] 2 0
        = ([mkE "B" 8, mkE "C" 5], 1) := by
  refine ⟨?_, ?_, ?_, ?_, by decide⟩
  · intro l t i hi
    exact ⟨List.eraseIdx_eq_take_drop_succ l i,
      by simp [deleteEntity, List.length_eraseIdx, hi]⟩
  · intro l t i; rfl
  · intro l t; simp [deleteEntity]
  · intro l t h1 ht
    rw [h1] at ht
    simp only [deleteEntity]
    split <;> omega

/-- Claim C5 witness: the delete theorem applied at concrete inputs,
discharging the index-validity and turn-range hypotheses. -/
theorem delete_turn_adjust_witness :
    ((deleteEntity [mkE "A" 10, mkE "B" 8] 0 0).1
        = ([mkE "A" 10, mkE "B" 8] : List Entity).take 0
          ++ ([mkE "A" 10, mkE "B" 8] : List Entity).drop 1
      ∧ (deleteEntity [mkE "A" 10, mkE "B" 8] 0 0).1.length
        = ([mkE "A" 10, mkE "B" 8] : List Entity).length - 1)
    ∧ (deleteEntity [mkE "A" 10] 1 0).2 = 0 :=
  ⟨delete_turn_adjust.1 [mkE "A" 10, mkE "B" 8] 0 0 (by decide),
   delete_turn_adjust.2.2.2.1 [mkE "A" 10] 1 (by decide) (by decide)⟩

/-- Insertion grows the list by exactly one. -/
theorem insert_entity_length (l : List Entity) (t : Nat) (e : Entity) :
    (insert_entity l t e).1.length = l.length + 1 := by
  have hidx := insertIndex_le_length e.initiative.val l
  simp only [insert_entity, List.length_append, List.length_cons, List.length_take,
    List.length_drop]
  omega

/-- The point update of `nextTurn` preserves the list length. -/
theorem modifyAt_length (f : Entity → Entity) :
    ∀ (l : List Entity) (n : Nat), (modifyAt f l n).length = l.length := by
  intro l
  induction l with
  | nil => intro n; rfl
  | cons x xs ih =>
    intro n
    cases n with
    | zero => rfl
    | succ n => simp [modifyAt, ih]

/-- Swapping two positions preserves the list length. -/
theorem swapIdx_length (l : List Entity) (i j : Nat) :
    (swapIdx l i j).length = l.length := by
  rw [swapIdx]
  cases l.get? i <;> cases l.get? j <;> simp

/-- Claim C3, counterexample: from the empty state (which satisfies the claimed
invariant), a single insert yields a one-element list with turn pointer 1,
which is not strictly less than the length — the claimed invariant is not
preserved by the insert operation. -/
theorem turn_index_strict_counterexample :
    (step ⟨[], 0⟩ (Op.insert (mkE "A" 10))).entities.length = 1
    ∧ (step ⟨[], 0⟩ (Op.insert (mkE "A" 10))).turn = 1
    ∧ ¬((step ⟨[], 0⟩ (Op.insert (mkE "A" 10))).turn
          < (step ⟨[], 0⟩ (Op.insert (mkE "A" 10))).entities.length) := by
  decide

/-- Claim C3 (amended): the invariant the engine actually preserves under
every operation (insert, remove, advance, retreat, swap, with valid indices)
is `turn ≤ length` together with `turn = 0` for the empty list; the turn
pointer can transiently sit one past the end (exactly the counterexample
state), and the next advance brings it back into range. -/
theorem turn_inv_preserved :
    ∀ (s : EState) (op : Op), TurnInv s → opValid s op → TurnInv (step s op) := by
  rintro ⟨l, t⟩ op ⟨hle0, hz0⟩ hv
  have hle : t ≤ l.length := hle0
  have hz : l.length = 0 → t = 0 := hz0
  cases op with
  | insert e =>
    refine ⟨?_, ?_⟩
    · show (insert_entity l t e).2 ≤ (insert_entity l t e).1.length
      rw [insert_entity_length]
      have hidx := insertIndex_le_length e.initiative.val l
      simp only [insert_entity]
      split <;> omega
    · intro h0
      rw [show (step ⟨l, t⟩ (Op.insert e)).entities = (insert_entity l t e).1 from rfl,
        insert_entity_length] at h0
      omega
  | delete i =>
    simp only [opValid] at hv
    have hlen : (l.eraseIdx i).length = l.length - 1 := by
      simp [List.length_eraseIdx, hv]
    refine ⟨?_, ?_⟩
    · show (if i < t then t - 1 else t) ≤ (l.eraseIdx i).length
      rw [hlen]
      split <;> omega
    · intro h0
      rw [show (step ⟨l, t⟩ (Op.delete i)).entities = l.eraseIdx i from rfl, hlen] at h0
      show (if i < t then t - 1 else t) = 0
      split <;> omega
  | next =>
    by_cases h : l.length = 0
    · refine ⟨?_, ?_⟩ <;> simp [step, nextTurn, h, modifyAt_length]
    · refine ⟨?_, ?_⟩
      · show (if l.length = 0 then 0 else (t + 1) % l.length)
            ≤ (modifyAt resetEntity l _).length
        rw [modifyAt_length, if_neg h]
        exact le_of_lt (Nat.mod_lt _ (Nat.pos_of_ne_zero h))
      · intro h0
        rw [show (step ⟨l, t⟩ Op.next).entities
              = modifyAt resetEntity l (if l.length = 0 then 0 else (t + 1) % l.length)
            from rfl, modifyAt_length] at h0
        exact absurd h0 h
  | prev =>
    refine ⟨?_, ?_⟩
    · show (if t = 0 then l.length - 1 else t - 1) ≤ l.length
      split <;> omega
    · intro h0
      have h0' : l.length = 0 := h0
      have := hz h0'
      show (if t = 0 then l.length - 1 else t - 1) = 0
      split <;> omega
  | moveUp i =>
    refine ⟨?_, ?_⟩
    · show t ≤ (swapIdx l i (i - 1)).length
      rw [swapIdx_length]; exact hle
    · intro h0
      rw [show (step ⟨l, t⟩ (Op.moveUp i)).entities = swapIdx l i (i - 1) from rfl,
        swapIdx_length] at h0
      exact hz h0
  | moveDown i =>
    refine ⟨?_, ?_⟩
    · show t ≤ (swapIdx l i (i + 1)).length
      rw [swapIdx_length]; exact hle
    · intro h0
      rw [show (step ⟨l, t⟩ (Op.moveDown i)).entities = swapIdx l i (i + 1) from rfl,
        swapIdx_length] at h0
      exact hz h0

/-- Claim C3 witness: the preservation theorem applied at a concrete state and
operation, discharging the invariant and validity hypotheses. -/
theorem turn_inv_preserved_witness :
    TurnInv (step ⟨[mkE "A" 10], 0⟩ Op.next) :=
  turn_inv_preserved ⟨[mkE "A" 10], 0⟩ Op.next ⟨by decide, by decide⟩ trivial

/-- Concrete combatant with a legendary-action budget of 2, currently full. -/
def eLeg : Entity := { mkE "D" 12 with legendaryActions := some ⟨(2, 2), false⟩ }

/-- Subtracting 1 in `u32` arithmetic is exact while the value is positive and
in range. -/
theorem u32_sub_one_mod (left : Nat) (h1 : 1 ≤ left) (h2 : left < u32Mod) :
    (left + (u32Mod - 1)) % u32Mod = left - 1 := by
  have hpos : 1 ≤ u32Mod := by norm_num [u32Mod]
  have heq : left + (u32Mod - 1) = (left - 1) + u32Mod := by omega
  rw [heq, Nat.add_mod_right, Nat.mod_eq_of_lt (by omega)]

/-- Claim C6, counterexample: the raw `Message::LegActionPlus` handler applied
at `remaining = total = 2` yields `remaining = 3`, outside `[0, total]` — the
handler itself (`*left += 1`) does not clamp; the claimed clamping lives only
in the view's button gating. -/
theorem leg_action_unclamped_counterexample :
    ((legActionPlus eLeg).legendaryActions.map fun h => h.val.2) = some 3
    ∧ ¬(3 ≤ 2) := by
  decide

/-- Well-formedness of a legendary-action budget: remaining within the total
and the total within `u32` range. -/
def LegOk (e : Entity) : Prop :=
  ∀ h ∈ e.legendaryActions, h.val.2 ≤ h.val.1 ∧ h.val.1 < u32Mod

/-- Claim C6 (amended): the raw handlers do not clamp, but the view emits
`LegActionMinus` only when `remaining ≠ 0` and `LegActionPlus` only when
`remaining ≠ total`; the operations as reachable through the UI therefore keep
`remaining` within `[0, total]`, with the decrement at 0 and increment at the
total both rejected (state unchanged). -/
theorem leg_action_gated_in_range :
    ∀ e : Entity, LegOk e →
      LegOk (legActionMinusGated e)
      ∧ LegOk (legActionPlusGated e)
      ∧ (∀ h0 ∈ e.legendaryActions, h0.val.2 = 0 → legActionMinusGated e = e)
      ∧ (∀ h0 ∈ e.legendaryActions, h0.val.2 = h0.val.1 → legActionPlusGated e = e) := by
  rintro ⟨n, hp, rf, co, la, init⟩ hok
  cases la with
  | none =>
    refine ⟨?_, ?_, ?_, ?_⟩ <;> simp [LegOk, legActionMinusGated, legActionPlusGated]
  | some h =>
    obtain ⟨⟨tot, left⟩, hid⟩ := h
    obtain ⟨hle, htot⟩ := hok ⟨(tot, left), hid⟩ (by simp)
    simp only at hle htot
    refine ⟨?_, ?_, ?_, ?_⟩
    · by_cases hzero : left = 0
      · subst hzero
        simpa [legActionMinusGated] using hok
      · simp only [legActionMinusGated, legActionMinus, ne_eq, hzero, not_false_iff,
          if_true, ite_true, Option.map_some']
        intro h2 hm
        simp only [Option.mem_def, Option.some.injEq] at hm
        subst hm
        rw [u32_sub_one_mod left (by omega) (by omega)]
        refine ⟨?_, ?_⟩ <;> dsimp only <;> omega
    · by_cases heq : left = tot
      · subst heq
        simpa [legActionPlusGated] using hok
      · simp only [legActionPlusGated, legActionPlus, ne_eq, heq, not_false_iff,
          if_true, ite_true, Option.map_some']
        intro h2 hm
        simp only [Option.mem_def, Option.some.injEq] at hm
        subst hm
        rw [Nat.mod_eq_of_lt (by omega)]
        refine ⟨?_, ?_⟩ <;> dsimp only <;> omega
    · intro h0 hm hval
      simp only [Option.mem_def, Option.some.injEq] at hm
      subst hm
      simp only at hval
      simp [legActionMinusGated, hval]
    · intro h0 hm hval
      simp only [Option.mem_def, Option.some.injEq] at hm
      subst hm
      simp only at hval
      simp [legActionPlusGated, hval]

/-- Claim C6 witness: the gated-clamping theorem applied to a combatant with a
full budget of 2, discharging the well-formedness hypothesis. -/
theorem leg_action_gated_in_range_witness :
    LegOk (legActionMinusGated eLeg) ∧ LegOk (legActionPlusGated eLeg) :=
  ⟨(leg_action_gated_in_range eLeg (by unfold LegOk; decide)).1,
   (leg_action_gated_in_range eLeg (by unfold LegOk; decide)).2.1⟩

/-- Point update at the updated index: the combatant at the new turn position
of `nextTurn` is the reset image of the one previously there. -/
theorem modifyAt_get_self (f : Entity → Entity) :
    ∀ (l : List Entity) (n : Nat), (modifyAt f l n).get? n = (l.get? n).map f := by
  intro l
  induction l with
  | nil => intro n; rfl
  | cons x xs ih =>
    intro n
    cases n with
    | zero => rfl
    | succ n => simpa [modifyAt] using ih n

/-- Iterating `advanceState` from turn 0 keeps the length fixed and cycles the
turn pointer through `k % length`. -/
theorem iterate_advance_spec (l : List Entity) (h : 0 < l.length) :
    ∀ k : Nat, (advanceState^[k] (l, 0)).1.length = l.length
      ∧ (advanceState^[k] (l, 0)).2 = k % l.length := by
  intro k
  induction k with
  | zero => simp
  | succ k ih =>
    obtain ⟨ihlen, iht⟩ := ih
    rw [Function.iterate_succ_apply']
    have hne : l.length ≠ 0 := by omega
    constructor
    · show (nextTurn (advanceState^[k] (l, 0)).1 (advanceState^[k] (l, 0)).2).1.length
          = l.length
      simp [nextTurn, modifyAt_length, ihlen]
    · show (nextTurn (advanceState^[k] (l, 0)).1 (advanceState^[k] (l, 0)).2).2
          = (k + 1) % l.length
      simp only [nextTurn, ihlen, iht, hne, if_false, ite_false]
      exact Nat.mod_add_mod k l.length 1

/-- Claim C7 (confirmed): `nextTurn` returns `(turn + 1) % length` (0 for the
empty list, with no division by zero); the combatant at the new index is the
reset image of the previous occupant, so its reaction flag is true and any
legendary budget is refilled to its total; and advancing `length` times from
index 0 returns to index 0. -/
theorem next_turn_spec :
    (∀ (l : List Entity) (t : Nat),
        (nextTurn l t).2 = if l.length = 0 then 0 else (t + 1) % l.length)
    ∧ (∀ (l : List Entity) (t : Nat),
        (nextTurn l t).1.get? (nextTurn l t).2 = (l.get? (nextTurn l t).2).map resetEntity)
    ∧ (∀ (l : List Entity) (t : Nat) (e : Entity),
        (nextTurn l t).1.get? (nextTurn l t).2 = some e →
          e.reactionFree = true ∧ ∀ h ∈ e.legendaryActions, h.val.2 = h.val.1)
    ∧ (∀ l : List Entity, 0 < l.length → (advanceState^[l.length] (l, 0)).2 = 0) := by
  have h2 : ∀ (l : List Entity) (t : Nat),
      (nextTurn l t).1.get? (nextTurn l t).2 = (l.get? (nextTurn l t).2).map resetEntity :=
    fun l t => modifyAt_get_self resetEntity l _
  refine ⟨fun l t => rfl, h2, ?_, ?_⟩
  · intro l t e he
    rw [h2] at he
    rcases hx : l.get? (nextTurn l t).2 with _ | x
    · rw [hx] at he; simp at he
    · rw [hx] at he
      simp only [Option.map_some', Option.some.injEq] at he
      subst he
      refine ⟨rfl, ?_⟩
      intro h hm
      rcases hla : x.legendaryActions with _ | y
      · simp [resetEntity, hla] at hm
      · simp only [resetEntity, hla, Option.map_some', Option.mem_def,
          Option.some.injEq] at hm
        subst hm
        rfl
  · intro l hl
    rw [(iterate_advance_spec l hl l.length).2, Nat.mod_self]

/-- Claim C7 witness: the advance theorem applied at concrete inputs — the
reset consequence at a singleton list (discharging the `some`-hypothesis) and
the full-cycle property at a two-element list (discharging `0 < length`). -/
theorem next_turn_spec_witness :
    ((resetEntity (mkE "A" 10)).reactionFree = true
      ∧ ∀ h ∈ (resetEntity (mkE "A" 10)).legendaryActions, h.val.2 = h.val.1)
    ∧ (advanceState^[([mkE "A" 10, mkE "B" 8] : List Entity).length]
        (([mkE "A" 10, mkE "B" 8] : List Entity), 0)).2 = 0 :=
  ⟨next_turn_spec.2.2.1 [mkE "A" 10] 0 (resetEntity (mkE "A" 10)) (by decide),
   next_turn_spec.2.2.2 [mkE "A" 10, mkE "B" 8] (by decide)⟩

/-- Claim C8, counterexample: a failed read (missing file or corrupt JSON) on
`Message::LoadEncounter` makes the handler panic — the source `unwrap()`s the
file-open and parse results, modelled as `Option.none` — rather than surfacing
a visible error state; no outcome of the handler carries an error message. -/
theorem load_error_panics_counterexample :
    loadEncounterMsg "goblins" SaveMode.none [] 0 (Except.error "No such file")
      = Option.none := rfl

/-- Claim C8 (amended): on a read error the load handlers panic (crash) instead
of surfacing an error state; the all-or-nothing half of the claim does hold —
a successful read stages the fully parsed records with the combatant list
untouched, and combatants are only inserted by the separate confirm step,
which inserts every staged record. -/
theorem load_all_or_nothing :
    (∀ (name : String) (mode : SaveMode) (entities : List Entity) (turn : Nat) (msg : String),
        (∀ rows, mode ≠ SaveMode.loadEncounter name rows) →
        loadEncounterMsg name mode entities turn (Except.error msg) = Option.none)
    ∧ (∀ (name : String) (mode : SaveMode) (entities : List Entity) (turn : Nat)
          (rows : List Enemy),
        (∀ rows0, mode ≠ SaveMode.loadEncounter name rows0) →
        loadEncounterMsg name mode entities turn (Except.ok rows)
          = some (SaveMode.loadEncounter name rows, entities, turn))
    ∧ (∀ (name : String) (rows : List Enemy) (entities : List Entity) (turn : Nat)
          (read : Except String (List Enemy)),
        loadEncounterMsg name (SaveMode.loadEncounter name rows) entities turn read
          = some (SaveMode.none, (insertAll entities turn (rows.map enemyToEntity)).1,
              (insertAll entities turn (rows.map enemyToEntity)).2))
    ∧ (∀ (name : String) (mode : SaveMode) (entities : List Entity) (turn : Nat) (msg : String),
        (∀ rows, mode ≠ SaveMode.loadParty name rows) →
        loadPartyMsg name mode entities turn (Except.error msg) = Option.none)
    ∧ (∀ (name : String) (mode : SaveMode) (entities : List Entity) (turn : Nat)
          (pcs : List Pc),
        (∀ rows0, mode ≠ SaveMode.loadParty name rows0) →
        loadPartyMsg name mode entities turn (Except.ok pcs)
          = some (SaveMode.loadParty name (pcs.map fun pc => (pc, "")), entities, turn)) := by
  refine ⟨?_, ?_, ?_, ?_, ?_⟩
  · intro name mode entities turn msg h
    cases mode with
    | loadEncounter curr rows =>
      have hcn : curr ≠ name := fun hc => h rows (by rw [hc])
      simp [loadEncounterMsg, hcn]
    | _ => rfl
  · intro name mode entities turn rows h
    cases mode with
    | loadEncounter curr rows0 =>
      have hcn : curr ≠ name := fun hc => h rows0 (by rw [hc])
      simp [loadEncounterMsg, hcn]
    | _ => rfl
  · intro name rows entities turn read
    simp [loadEncounterMsg]
  · intro name mode entities turn msg h
    cases mode with
    | loadParty curr rows =>
      have hcn : curr ≠ name := fun hc => h rows (by rw [hc])
      simp [loadPartyMsg, hcn]
    | _ => rfl
  · intro name mode entities turn pcs h
    cases mode with
    | loadParty curr rows0 =>
      have hcn : curr ≠ name := fun hc => h rows0 (by rw [hc])
      simp [loadPartyMsg, hcn]
    | _ => rfl

/-- Claim C8 witness: the load theorem applied at concrete inputs, discharging
the not-already-staged hypotheses. -/
theorem load_all_or_nothing_witness :
    loadEncounterMsg "g" SaveMode.none [] 0 (Except.error "boom") = Option.none
    ∧ loadPartyMsg "p" SaveMode.none [] 0 (Except.ok [⟨"PC1", 7⟩])
        = some (SaveMode.loadParty "p" [(⟨"PC1", 7⟩, "")], [], 0) :=
  ⟨load_all_or_nothing.1 "g" SaveMode.none [] 0 "boom"
      (fun _ h => SaveMode.noConfusion h),
   load_all_or_nothing.2.2.2.2 "p" SaveMode.none [] 0 [⟨"PC1", 7⟩]
      (fun _ h => SaveMode.noConfusion h)⟩

/-- Insertion produces a permutation of consing the new combatant. -/
theorem insert_entity_perm (l : List Entity) (t : Nat) (e : Entity) :
    List.Perm (insert_entity l t e).1 (e :: l) := by
  show List.Perm (l.take _ ++ e :: l.drop _) _
  refine List.Perm.trans List.perm_middle ?_
  rw [List.take_append_drop]

/-- Inserting a batch of combatants produces a permutation of prepending the
batch. -/
theorem insertAll_perm :
    ∀ (new : List Entity) (l : List Entity) (t : Nat),
      List.Perm (insertAll l t new).1 (new ++ l) := by
  intro new
  induction new with
  | nil => intro l t; simp [insertAll]
  | cons e es ih =>
    intro l t
    have h1 : insertAll l t (e :: es)
        = insertAll (insert_entity l t e).1 (insert_entity l t e).2 es := by
      simp [insertAll]
    rw [h1]
    refine List.Perm.trans (ih _ _) ?_
    refine List.Perm.trans (List.Perm.append_left es (insert_entity_perm l t e)) ?_
    exact List.perm_middle

/-- The fields of a combatant the round-trip claim is about: name, HP,
initiative, and legendary-action total. -/
def entityKey (e : Entity) : String × Nat × Nat × Option Nat :=
  (e.name.val, e.hp.val, e.initiative.val, e.legendaryActions.map fun h => h.val.1)

/-- Save-then-load preserves the claim fields of each combatant. -/
theorem entityKey_round_trip (e : Entity) :
    entityKey (enemyToEntity (entityToEnemy e)) = entityKey e := by
  obtain ⟨n, hp, rf, co, la, init⟩ := e
  cases la with
  | none => rfl
  | some h =>
    obtain ⟨⟨tot, left⟩, hid⟩ := h
    rfl

/-- A freshly loaded combatant has its reaction available and its legendary
budget full. -/
theorem enemyToEntity_reset (en : Enemy) :
    (enemyToEntity en).reactionFree = true
    ∧ ∀ h ∈ (enemyToEntity en).legendaryActions, h.val.2 = h.val.1 := by
  obtain ⟨n, hp, la, init⟩ := en
  cases la with
  | none => exact ⟨rfl, by simp [enemyToEntity, Entity.new]⟩
  | some h =>
    obtain ⟨v, hid⟩ := h
    refine ⟨rfl, ?_⟩
    intro h2 hm
    simp only [enemyToEntity, Entity.new, Option.mem_def, Option.some.injEq] at hm
    subst hm
    rfl

/-- Overwrite only the legendary `remaining` of a combatant, for stating that
the save snapshot ignores it. -/
def setLegRemaining (e : Entity) (r : Nat) : Entity :=
  { e with legendaryActions := e.legendaryActions.map fun h => ⟨(h.val.1, r), h.hidden⟩ }

/-- Claim C9 (confirmed): saving an encounter and loading it back (into a fresh
session) reproduces the same multiset of combatant names, hit points,
initiatives and legendary totals; every loaded combatant has its legendary
`remaining` re-initialised to its total (and reaction available); and the save
snapshot is independent of the `remaining` values at save time (it takes no
turn input at all). -/
theorem encounter_round_trip :
    ∀ entities : List Entity,
      ((insertAll [] 0 ((entities.map entityToEnemy).map enemyToEntity)).1.map
          entityKey).Perm (entities.map entityKey)
      ∧ (∀ e ∈ (insertAll [] 0 ((entities.map entityToEnemy).map enemyToEntity)).1,
          e.reactionFree = true ∧ ∀ h ∈ e.legendaryActions, h.val.2 = h.val.1)
      ∧ (∀ (e : Entity) (r : Nat), entityToEnemy (setLegRemaining e r) = entityToEnemy e) := by
  intro entities
  have hperm := insertAll_perm ((entities.map entityToEnemy).map enemyToEntity) [] 0
  rw [List.append_nil] at hperm
  refine ⟨?_, ?_, ?_⟩
  · refine List.Perm.trans (List.Perm.map entityKey hperm) ?_
    rw [List.map_map, List.map_map]
    have hmc : List.map ((entityKey ∘ enemyToEntity) ∘ entityToEnemy) entities
        = List.map entityKey entities :=
      List.map_congr_left (fun a _ => entityKey_round_trip a)
    rw [hmc]
  · intro e he
    have hmem := (hperm.mem_iff).mp he
    obtain ⟨en, _, rfl⟩ := List.mem_map.mp hmem
    exact enemyToEntity_reset en
  · intro e r
    obtain ⟨n, hp, rf, co, la, init⟩ := e
    cases la with
    | none => rfl
    | some h =>
      obtain ⟨⟨tot, left⟩, hid⟩ := h
      rfl

/-- Claim C9 witness: the round-trip theorem applied to a singleton list,
discharging the membership hypothesis of the reset part. -/
theorem encounter_round_trip_witness :
    (mkE "A" 10).reactionFree = true
    ∧ ∀ h ∈ (mkE "A" 10).legendaryActions, h.val.2 = h.val.1 :=
  (encounter_round_trip [mkE "A" 10]).2.1 (mkE "A" 10) (by decide)

/-- Claim C10, counterexample: with the modifier `+2147483647` (`i32::MAX`,
admitted by the input filter), no d20 roll in `[1, 20]` makes the produced
initiative equal `max(0, roll + modifier)` — the `i32` addition wraps to a
negative value, so the handler yields 0 while the claimed expression is about
`2^31`. -/
theorem roll_initiative_overflow_counterexample :
    ¬ ∃ r ∈ Finset.Icc 1 20,
        rollInitiative 2147483647 r = (max 0 ((r : Int) + 2147483647)).toNat := by
  decide

/-- Claim C10 (amended): whenever `roll + modifier` does not overflow `i32`
(which covers every negative, empty, and reasonably sized positive modifier),
the produced initiative is exactly `max(0, roll + modifier)` as a non-negative
integer — in particular a negative modifier can never produce a negative or
wrapped-around value. -/
theorem roll_initiative_in_range :
    ∀ (m : Int) (r : Nat), -(2 ^ 31) ≤ m → 1 ≤ r → r ≤ 20 →
      (r : Int) + m < 2 ^ 31 →
      rollInitiative m r = (max 0 ((r : Int) + m)).toNat := by
  intro m r h1 h2 h3 h4
  have hp31 : (2 : Int) ^ 31 = 2147483648 := by norm_num
  have hp32 : (2 : Int) ^ 32 = 4294967296 := by norm_num
  rw [hp31] at h1 h4
  have hr : (1 : Int) ≤ (r : Int) := by exact_mod_cast h2
  unfold rollInitiative wrapI32
  rw [hp31, hp32, Int.emod_eq_of_lt (by omega) (by omega)]
  have heq : (r : Int) + m + 2147483648 - 2147483648 = (r : Int) + m := by ring
  rw [heq]

/-- Claim C10 witness: the no-overflow theorem applied to modifier `-5` and
roll 3 (yielding a clamped initiative of 0). -/
theorem roll_initiative_in_range_witness :
    rollInitiative (-5) 3 = (max 0 (((3 : Nat) : Int) + (-5))).toNat :=
  roll_initiative_in_range (-5) 3 (by norm_num) (by norm_num) (by norm_num) (by norm_num)

